import Mathlib

/-!
Shallow embedding of the kudu-serializer-jsonapi serializer
(`toJSON`, `errorsToJSON`, `buildResource`, `buildCompoundDocuments` and the
deduplication step of `toJSON`), translated from the source, together with
theorems settling the frozen claims about it.

JavaScript values reaching the serializer are modelled by the inductive
`JSVal`.  A Kudu model instance is `JSVal.inst ctor props` where `ctor`
carries what the serializer reads off `instance.constructor`
(`singular`, `plural`, `schema.properties`, `schema.relationships`) and
`props` is the own enumerable property bag, in insertion order, covering
the identifier, the attribute values and the populated relationship
values alike, exactly as one JavaScript object.
-/

namespace KuduJsonApi

/-- Entry of `constructor.schema.properties`: only the `public` flag is read
by the serializer (`true`, `false`, or unset). -/
structure PropSchema where
  publicFlag : Option Bool
deriving DecidableEq

/-- Entry of `constructor.schema.relationships`: declared target type name and
cardinality flag.  The serializer only reads `type`. -/
structure RelSchema where
  type : String
  hasMany : Bool := false
deriving DecidableEq

/-- What the serializer reads from `instance.constructor`: the registered
singular and plural type names and the model schema.  `relationships` is
optional because the source guards it with `|| {}`. -/
structure ModelCtor where
  singular : String
  plural : String
  properties : List (String × PropSchema)
  relationships : Option (List (String × RelSchema))
deriving DecidableEq

/-- JavaScript values as seen by the serializer.  `inst` is a Kudu model
instance: its constructor data plus its own enumerable properties in
insertion order.  Object and array identity (references) is not
representable in a value embedding; the serializer only compares
identifiers, which the data model declares as strings. -/
inductive JSVal where
  | undefVal : JSVal
  | jsNull : JSVal
  | str : String → JSVal
  | num : Int → JSVal
  | bool : Bool → JSVal
  | inst : ModelCtor → List (String × JSVal) → JSVal
  | arr : List JSVal → JSVal

mutual

/-- Structural size of a value; serves as the (always sufficient) fuel of the
compound-document recursion. -/
def jsSize : JSVal → Nat
  | .undefVal => 1
  | .jsNull => 1
  | .str _ => 1
  | .num _ => 1
  | .bool _ => 1
  | .inst _ props => 1 + jsSizeProps props
  | .arr xs => 1 + jsSizeArr xs

/-- Structural size of a property bag. -/
def jsSizeProps : List (String × JSVal) → Nat
  | [] => 0
  | (_, v) :: rest => 1 + jsSize v + jsSizeProps rest

/-- Structural size of an array of values. -/
def jsSizeArr : List JSVal → Nat
  | [] => 0
  | v :: rest => 1 + jsSize v + jsSizeArr rest

end

/-- Truthiness of a JavaScript value (`if (v)`). -/
def truthy : JSVal → Bool
  | .undefVal => false
  | .jsNull => false
  | .str s => s != ""
  | .num n => n != 0
  | .bool b => b
  | .inst _ _ => true
  | .arr _ => true

/-- Test used by the source's `Array.isArray`. -/
def isArray : JSVal → Bool
  | .arr _ => true
  | _ => false

/-- First-occurrence lookup in an ordered association list (JavaScript object
keys are unique, so first occurrence is the occurrence). -/
def lookupKey (l : List (String × α)) (k : String) : Option α :=
  (l.find? (fun p => p.1 == k)).map (fun p => p.2)

/-- Property access `v[k]`: `undefined` for a missing key and on non-object
values (no property of that name is read anywhere on primitives). -/
def getProp : JSVal → String → JSVal
  | .inst _ props, k => (lookupKey props k).getD .undefVal
  | _, _ => .undefVal

/-- Test `v.hasOwnProperty(k)`. -/
def hasOwnProp : JSVal → String → Bool
  | .inst _ props, k => props.any (fun p => p.1 == k)
  | _, _ => false

/-- Truthiness of `v.constructor.schema`: model constructors always carry a
schema object (truthy); the constructors of primitive values have none. -/
def hasSchema : JSVal → Bool
  | .inst _ _ => true
  | _ => false

/-- Enumeration `Object.keys(v)` paired with the property values. -/
def ownProps : JSVal → List (String × JSVal)
  | .inst _ props => props
  | _ => []

/-- Read `v.constructor.singular`. -/
def singularOf : JSVal → String
  | .inst c _ => c.singular
  | _ => ""

/-- Read `v.constructor.plural`. -/
def pluralOf : JSVal → String
  | .inst c _ => c.plural
  | _ => ""

/-- Read `v.constructor.schema.properties`. -/
def propSchemaOf : JSVal → List (String × PropSchema)
  | .inst c _ => c.properties
  | _ => []

/-- Read `v.constructor.schema.relationships || {}`. -/
def relSchemaOf : JSVal → List (String × RelSchema)
  | .inst c _ => c.relationships.getD []
  | _ => []

/-- String interpolation of a value inside a template literal.  Only ever
applied to a truthy `instance.id`; the object and array cases approximate the
host conversion, which no claim exercises. -/
def jsToString : JSVal → String
  | .undefVal => "undefined"
  | .jsNull => "null"
  | .str s => s
  | .num n => toString n
  | .bool b => if b then "true" else "false"
  | .inst _ _ => "[object Object]"
  | .arr _ => ""

/-- Strict equality `===` as used by the deduplication step.  On primitives it
is value equality; two objects or arrays are equal only when they are the same
reference, which a value embedding cannot witness, so the object and array
cases are `false` (identifiers are strings per the data model). -/
def jsEq : JSVal → JSVal → Bool
  | .undefVal, .undefVal => true
  | .jsNull, .jsNull => true
  | .str a, .str b => a == b
  | .num a, .num b => a == b
  | .bool a, .bool b => a == b
  | _, _ => false

/-- Resource identifier `{ id, type }` (member insertion order: id, type). -/
structure ResourceIdentifier where
  id : JSVal
  type : String

/-- Relationship `links` member built from the plural type name, the owning
identifier and the relationship name. -/
structure Links where
  self : String
  related : String

/-- Value of a relationship's `data` member: a single resource identifier or
an array of them. -/
inductive RelData where
  | single : ResourceIdentifier → RelData
  | multiple : List ResourceIdentifier → RelData

/-- Relationship object: both members are optional (assignment skipped). -/
structure Relationship where
  links : Option Links
  data : Option RelData

/-- Resource object `{ type, id, attributes, relationships? }`.  The
`relationships` member is only assigned when the built map is non-empty. -/
structure ResourceObject where
  type : String
  id : JSVal
  attributes : List (String × JSVal)
  relationships : Option (List (String × Relationship))

/-- Resource identifier for one nested relationship value
(`{ id: item.id ? item.id : item, type }`): the element's own `id` when that
is truthy, otherwise the element itself (the raw-string case); the type is
the relationship's declared target type. -/
def mkIdentifier (relType : String) (item : JSVal) : ResourceIdentifier :=
  { id := if truthy (getProp item "id") then getProp item "id" else item
    type := relType }

/-- Body of the per-key step of the relationships reduce in `buildResource`:
`links` when the owning instance's `id` is truthy, `data` from the nested
value (array → array of identifiers; truthy non-array → one identifier;
falsy non-array → omitted). -/
def buildRelationship (plural : String) (inst : JSVal) (key : String)
    (relType : String) : Relationship :=
  let instId := getProp inst "id"
  let links : Option Links :=
    if truthy instId then
      some { self := "/" ++ plural ++ "/" ++ jsToString instId ++
                     "/relationships/" ++ key
             related := "/" ++ plural ++ "/" ++ jsToString instId ++ "/" ++ key }
    else none
  let nested := getProp inst key
  let data : Option RelData :=
    match nested with
    | .arr xs => some (.multiple (xs.map (mkIdentifier relType)))
    | v => if truthy v then some (.single (mkIdentifier relType v)) else none
  { links := links, data := data }

/-- Condition of the attributes reduce:
`keySchema && (keySchema.public === true || keySchema.public === undefined)` —
the key is declared (a schema object is truthy) and its `public` flag is
`true` or unset. -/
def attrAdmit (schema : List (String × PropSchema)) (key : String) : Bool :=
  match lookupKey schema key with
  | some ks => ks.publicFlag == some true || ks.publicFlag == none
  | none => false

/-- Body of `buildResource` after its identifier guard (source lines building
the `resource` literal, the relationships reduce and the conditional
`relationships` assignment).  The attributes reduce appends each own property
admitted by the property schema; the relationships reduce visits the
relationship-schema keys in order. -/
def mkResource (inst : JSVal) : ResourceObject :=
  let schema := propSchemaOf inst
  let attrs : List (String × JSVal) :=
    (ownProps inst).foldl (fun obj kv =>
      if attrAdmit schema kv.1 then obj ++ [kv] else obj) []
  let rels : List (String × Relationship) :=
    (relSchemaOf inst).foldl (fun obj kv =>
      obj ++ [(kv.1, buildRelationship (pluralOf inst) inst kv.1 kv.2.type)]) []
  { type := singularOf inst
    id := getProp inst "id"
    attributes := attrs
    relationships := if rels.length != 0 then some rels else none }

/-- Message of the error thrown on a missing identifier. -/
def expectedIdMessage : String := "Expected an \"id\" property."

/-- Translation of `buildResource(instance, requireId = true)`: throw when the
(truthy) `requireId` finds no own `id` property, otherwise build the resource
object.  A thrown error is an `Except.error` carrying the message. -/
def buildResource (inst : JSVal) (requireId : Bool := true) :
    Except String ResourceObject :=
  if requireId && !(hasOwnProp inst "id") then .error expectedIdMessage
  else .ok (mkResource inst)

/-- Recursion body of `buildCompoundDocuments`, made structural on a fuel
argument so that the kernel can evaluate it; the wrapper passes `jsSize inst`,
which always suffices because each recursive call descends into a value nested
strictly inside the instance (JavaScript data graphs with cycles are not
representable in this value embedding, matching the spec's acyclic-input
assumption).  Per declared relationship key, an array-valued nested value
contributes the recursively collected documents of each truthy element whose
constructor has a schema, followed by the resource object of each truthy
element with a truthy `id`; a truthy non-array nested value with a truthy
`id` contributes its resource object.  The source pushes `undefined`
placeholders and nested arrays and then runs `flatten(included.filter(x => x))`;
here the placeholders are dropped at the point of production and the arrays
flattened, which yields the same flat list.  The `buildResource(item)` calls
are guarded by a truthy `item.id`, so their identifier check cannot throw and
they equal `mkResource item` (lemma `buildResource_of_truthy_id`). -/
def buildCompoundDocumentsAux : Nat → JSVal → List ResourceObject
  | 0, _ => []
  | fuel+1, inst =>
    (relSchemaOf inst).flatMap (fun kv =>
      match getProp inst kv.1 with
      | .arr xs =>
        (xs.map (fun item =>
          if truthy item && hasSchema item then
            buildCompoundDocumentsAux fuel item
          else [])).flatten
        ++ xs.filterMap (fun item =>
            if truthy item && truthy (getProp item "id") then
              some (mkResource item)
            else none)
      | v =>
        if truthy v && truthy (getProp v "id") then [mkResource v] else [])

/-- Translation of `buildCompoundDocuments(instance)`. -/
def buildCompoundDocuments (inst : JSVal) : List ResourceObject :=
  buildCompoundDocumentsAux (jsSize inst) inst

/-- Sameness test of the deduplication step:
`doc.type === item.type && doc.id === item.id`. -/
def sameDoc (a b : ResourceObject) : Bool :=
  a.type == b.type && jsEq a.id b.id

/-- One step of the deduplication reduce: keep the accumulator when it already
holds a document with the same type and identifier, otherwise push. -/
def dedupStep (arr : List ResourceObject) (item : ResourceObject) :
    List ResourceObject :=
  if arr.any (fun doc => sameDoc doc item) then arr else arr ++ [item]

/-- Deduplication reduce of `toJSON` over the collected `included` array. -/
def dedup (included : List ResourceObject) : List ResourceObject :=
  included.foldl dedupStep []

/-- Value of the top-level `data` member. -/
inductive DocData where
  | one : ResourceObject → DocData
  | many : List ResourceObject → DocData

/-- Top-level document `{ data, included? }`; `included` is only assigned when
the collected array is non-empty. -/
structure Document where
  data : DocData
  included : Option (List ResourceObject)

/-- Result of `toJSON`: a JSON text when `stringify` is set, otherwise the
structured value (the document, or native `null` for falsy input). -/
inductive SerResult where
  | text : String → SerResult
  | jsNullVal : SerResult
  | docVal : Document → SerResult

/-- Evaluation of `instance.map(buildResource)` over a throwing callback that
receives the element and its index: the first throw aborts the map. -/
def mapIdxThrow (f : JSVal → Nat → Except String ResourceObject) :
    Nat → List JSVal → Except String (List ResourceObject)
  | _, [] => .ok []
  | i, x :: xs => do
    let y ← f x i
    let ys ← mapIdxThrow f (i+1) xs
    pure (y :: ys)

/-- Escape of one character inside a JSON string (the characters the
serializer's outputs exercise; control characters other than newline are
left as they are). -/
def escChar (c : Char) : String :=
  if c == '\\' then "\\\\"
  else if c == '"' then "\\\""
  else if c == '\n' then "\\n"
  else String.singleton c

/-- Render of a string as a JSON string literal. -/
def renderString (s : String) : String :=
  "\"" ++ String.join (s.data.map escChar) ++ "\""

mutual

/-- Render of a value by `JSON.stringify`; `none` is `undefined`, which a
containing object omits and a containing array renders as `null`. -/
def renderJSVal : JSVal → Option String
  | .undefVal => none
  | .jsNull => some "null"
  | .str s => some (renderString s)
  | .num n => some (toString n)
  | .bool b => some (if b then "true" else "false")
  | .inst _ props =>
      some ("\x7b" ++ String.intercalate "," (renderObjProps props) ++ "\x7d")
  | .arr xs => some ("[" ++ String.intercalate "," (renderArrElems xs) ++ "]")

/-- Rendered members of an object, omitting `undefined`-valued keys. -/
def renderObjProps : List (String × JSVal) → List String
  | [] => []
  | (k, v) :: rest =>
    match renderJSVal v with
    | some sv => (renderString k ++ ":" ++ sv) :: renderObjProps rest
    | none => renderObjProps rest

/-- Rendered elements of an array; `undefined` elements render as `null`. -/
def renderArrElems : List JSVal → List String
  | [] => []
  | v :: rest => (renderJSVal v).getD "null" :: renderArrElems rest

end

/-- Render of a relationship `links` object (insertion order self, related). -/
def renderLinks (l : Links) : String :=
  "\x7b\"self\":" ++ renderString l.self ++
  ",\"related\":" ++ renderString l.related ++ "\x7d"

/-- Render of a resource identifier (insertion order id, type; an `undefined`
id is omitted). -/
def renderIdentifier (ri : ResourceIdentifier) : String :=
  "\x7b" ++ String.intercalate ","
    (((renderJSVal ri.id).map (fun s => "\"id\":" ++ s)).toList ++
     ["\"type\":" ++ renderString ri.type]) ++ "\x7d"

/-- Render of a relationship `data` member. -/
def renderRelData : RelData → String
  | .single ri => renderIdentifier ri
  | .multiple ris =>
      "[" ++ String.intercalate "," (ris.map renderIdentifier) ++ "]"

/-- Render of a relationship object (insertion order links, data; absent
members omitted). -/
def renderRelationship (r : Relationship) : String :=
  "\x7b" ++ String.intercalate ","
    ((r.links.map (fun l => "\"links\":" ++ renderLinks l)).toList ++
     (r.data.map (fun d => "\"data\":" ++ renderRelData d)).toList) ++ "\x7d"

/-- Render of a resource object (insertion order type, id, attributes,
relationships; an `undefined` id and an unassigned relationships member are
omitted). -/
def renderResource (r : ResourceObject) : String :=
  "\x7b" ++ String.intercalate ","
    (["\"type\":" ++ renderString r.type] ++
     ((renderJSVal r.id).map (fun s => "\"id\":" ++ s)).toList ++
     ["\"attributes\":\x7b" ++
        String.intercalate "," (renderObjProps r.attributes) ++ "\x7d"] ++
     (r.relationships.map (fun rels =>
        "\"relationships\":\x7b" ++
        String.intercalate ","
          (rels.map (fun kv => renderString kv.1 ++ ":" ++ renderRelationship kv.2)) ++
        "\x7d")).toList) ++ "\x7d"

/-- Render of the top-level `data` member. -/
def renderDocData : DocData → String
  | .one r => renderResource r
  | .many rs => "[" ++ String.intercalate "," (rs.map renderResource) ++ "]"

/-- Render of the top-level document (insertion order data, included). -/
def renderDocument (d : Document) : String :=
  "\x7b" ++ String.intercalate ","
    (["\"data\":" ++ renderDocData d.data] ++
     (d.included.map (fun inc =>
        "\"included\":[" ++ String.intercalate "," (inc.map renderResource) ++
        "]")).toList) ++ "\x7d"

/-- Document assembly tail of `toJSON`: deduplicate and attach `included` only
when the collected array is non-empty (it is always an array at this point, so
`included && included.length` is its non-emptiness), then render or return the
structured document per `stringify`. -/
def finishDoc (data : DocData) (included : List ResourceObject)
    (stringify : Bool) : SerResult :=
  let doc : Document :=
    { data := data
      included := if included.length != 0 then some (dedup included) else none }
  if stringify then .text (renderDocument doc) else .docVal doc

/-- Translation of `toJSON(instance = null, { stringify = true, requireId =
true } = {})`.  A falsy instance short-circuits to the null document.  For an
array, `instance.map(buildResource)` hands the element index to
`buildResource`'s `requireId` parameter (`Array#map` calls its callback with
`(element, index, array)`), so the element at index 0 is built with a falsy
`requireId` and all later elements with a truthy one; the `requireId` option
plays no part.  `flatten(instance.map(buildCompoundDocuments))` flattens the
per-element collections, each already flat. -/
def toJSON (inst : JSVal := .jsNull) (stringify : Bool := true)
    (requireId : Bool := true) : Except String SerResult :=
  if !truthy inst then
    .ok (if stringify then .text "null" else .jsNullVal)
  else
    match inst with
    | .arr xs => do
      let data ← mapIdxThrow (fun v i => buildResource v (i != 0)) 0 xs
      let included := (xs.map buildCompoundDocuments).flatten
      pure (finishDoc (.many data) included stringify)
    | v => do
      let r ← buildResource v requireId
      pure (finishDoc (.one r) (buildCompoundDocuments v) stringify)

/-- Error object `{ detail, status }` built from one Error-like value; either
member may be `undefined`. -/
structure ErrorObject where
  detail : JSVal
  status : JSVal

/-- Top-level error document `{ errors: [...] }`. -/
structure ErrorsDocument where
  errors : List ErrorObject

/-- Result of `errorsToJSON`: a JSON text or the structured value. -/
inductive ErrResult where
  | text : String → ErrResult
  | docVal : ErrorsDocument → ErrResult

/-- Render of one error object (insertion order detail, status; `undefined`
members omitted). -/
def renderErrorObject (e : ErrorObject) : String :=
  "\x7b" ++ String.intercalate ","
    (((renderJSVal e.detail).map (fun s => "\"detail\":" ++ s)).toList ++
     ((renderJSVal e.status).map (fun s => "\"status\":" ++ s)).toList) ++ "\x7d"

/-- Render of the error document. -/
def renderErrorsDocument (d : ErrorsDocument) : String :=
  "\x7b\"errors\":[" ++
  String.intercalate "," (d.errors.map renderErrorObject) ++ "]\x7d"

/-- Translation of `errorsToJSON(errors, stringify = true)`: a non-array input
is wrapped into a one-element array, each value is mapped to
`{ detail: error.message, status: error.status }` with no validation, and the
result is wrapped as `{ errors }`. -/
def errorsToJSON (errors : JSVal) (stringify : Bool := true) : ErrResult :=
  let errList : List JSVal :=
    match errors with
    | .arr xs => xs
    | e => [e]
  let mapped : List ErrorObject := errList.map (fun e =>
    { detail := getProp e "message", status := getProp e "status" })
  let response : ErrorsDocument := { errors := mapped }
  if stringify then .text (renderErrorsDocument response) else .docVal response

/-- Substring test used to state that an error message mentions "id". -/
def mentionsId (s : String) : Bool :=
  s.data.tails.any (fun t => [ 'i', 'd' ].isPrefixOf t)

/-! ### Concrete model fixtures (the models of the repository's test suite) -/

/-- Model registered as `test`/`tests` with a public and a non-public property
and two declared relationships. -/
def testCtor : ModelCtor :=
  { singular := "test", plural := "tests"
    properties := [("name", ⟨none⟩), ("private", ⟨some false⟩)]
    relationships := some [("children", ⟨"child", true⟩), ("child", ⟨"single", false⟩)] }

/-- Model registered as `child`/`childs` with one single-valued relationship. -/
def childCtor : ModelCtor :=
  { singular := "child", plural := "childs"
    properties := [("name", ⟨none⟩)]
    relationships := some [("deep", ⟨"single", false⟩)] }

/-- Model registered as `single`/`singles` with no declared relationships. -/
def singleCtor : ModelCtor :=
  { singular := "single", plural := "singles"
    properties := [("name", ⟨none⟩)]
    relationships := none }

/-- Instance of `single` with identifier "2". -/
def exChild2 : JSVal := .inst singleCtor [("id", .str "2"), ("name", .str "child")]

/-- Instance of `test` with identifier "1" and a populated single-valued
relationship. -/
def exInst1 : JSVal :=
  .inst testCtor [("name", .str "test"), ("id", .str "1"), ("child", exChild2)]

/-- Instance of `test` without an identifier property. -/
def exNoId : JSVal := .inst testCtor [("name", .str "test")]

/-- Instance of `single` with identifier "3", two relationship hops from
`exParentSingle`. -/
def exDeep : JSVal := .inst singleCtor [("id", .str "3"), ("name", .str "deep")]

/-- Instance of `child` whose single-valued relationship `deep` holds
`exDeep`. -/
def exChildDeep : JSVal :=
  .inst childCtor [("id", .str "2"), ("name", .str "c"), ("deep", exDeep)]

/-- Instance of `test` related to `exChildDeep` through the single-valued
relationship `child`. -/
def exParentSingle : JSVal := .inst testCtor [("id", .str "1"), ("child", exChildDeep)]

/-- Instance of `test` related to `exChildDeep` through the array-valued
relationship `children`. -/
def exParentArr : JSVal :=
  .inst testCtor [("id", .str "1"), ("children", .arr [exChildDeep])]

/-- Instance of `test` whose array-valued relationship is populated with an
empty array. -/
def exEmptyArr : JSVal := .inst testCtor [("id", .str "1"), ("children", .arr [])]

/-! ### Size and fuel lemmas -/

theorem jsSize_pos (v : JSVal) : 1 ≤ jsSize v := by
  cases v <;> simp [jsSize]

theorem jsSize_lt_of_mem_props {props : List (String × JSVal)} {k : String}
    {v : JSVal} (h : (k, v) ∈ props) : jsSize v < jsSizeProps props := by
  induction props with
  | nil => cases h
  | cons p rest ih =>
    obtain ⟨a, b⟩ := p
    cases h with
    | head => simp [jsSizeProps]; omega
    | tail _ hm =>
      have := ih hm
      simp [jsSizeProps]
      omega

theorem jsSize_lt_of_mem_arr {xs : List JSVal} {v : JSVal} (h : v ∈ xs) :
    jsSize v < jsSizeArr xs := by
  induction xs with
  | nil => cases h
  | cons x rest ih =>
    cases h with
    | head => simp [jsSizeArr]; omega
    | tail _ hm =>
      have := ih hm
      simp [jsSizeArr]
      omega

theorem lookupKey_some_mem {l : List (String × α)} {k : String} {v : α}
    (h : lookupKey l k = some v) : (k, v) ∈ l := by
  unfold lookupKey at h
  cases hf : l.find? (fun p => p.1 == k) with
  | none => rw [hf] at h; simp at h
  | some p =>
    rw [hf] at h
    simp at h
    have hm := List.mem_of_find?_eq_some hf
    have hp := List.find?_some hf
    obtain ⟨a, b⟩ := p
    simp at hp h
    rw [← hp, ← h]
    exact hm

theorem jsSize_getProp_le (v : JSVal) (k : String) :
    jsSize (getProp v k) ≤ jsSize v := by
  cases v with
  | inst c props =>
    show jsSize ((lookupKey props k).getD .undefVal) ≤ jsSize (.inst c props)
    cases hl : lookupKey props k with
    | none => simp [jsSize]
    | some w =>
      have h := jsSize_lt_of_mem_props (lookupKey_some_mem hl)
      simp only [Option.getD]
      simp [jsSize]
      omega
  | undefVal => simp [getProp, jsSize]
  | jsNull => simp [getProp, jsSize]
  | str s => simp [getProp, jsSize]
  | num n => simp [getProp, jsSize]
  | bool b => simp [getProp, jsSize]
  | arr xs => simp [getProp, jsSize]

theorem jsSize_lt_of_arr_getProp {inst : JSVal} {key : String}
    {xs : List JSVal} {item : JSVal} (hg : getProp inst key = .arr xs)
    (hm : item ∈ xs) : jsSize item < jsSize inst := by
  have h1 := jsSize_lt_of_mem_arr hm
  have h2 := jsSize_getProp_le inst key
  rw [hg] at h2
  simp [jsSize] at h2
  omega

theorem buildCompoundDocumentsAux_fuel (n : Nat) : ∀ (m : Nat) (inst : JSVal),
    jsSize inst ≤ n → jsSize inst ≤ m →
    buildCompoundDocumentsAux n inst = buildCompoundDocumentsAux m inst := by
  induction n using Nat.strong_induction_on with
  | _ n ih =>
    intro m inst hn hm
    have h1 := jsSize_pos inst
    match n, m with
    | 0, _ => omega
    | _ + 1, 0 => omega
    | n' + 1, m' + 1 =>
      simp only [buildCompoundDocumentsAux]
      apply List.flatMap_congr
      intro kv _
      cases hg : getProp inst kv.1 with
      | arr xs =>
        simp only []
        congr 1
        apply congrArg
        apply List.map_congr_left
        intro item hitem
        have hlt : jsSize item < jsSize inst := jsSize_lt_of_arr_getProp hg hitem
        by_cases hc : (truthy item && hasSchema item) = true
        · simp only [hc, if_true]
          exact ih n' (by omega) m' item (by omega) (by omega)
        · simp [hc]
      | undefVal => rfl
      | jsNull => rfl
      | str s => rfl
      | num i => rfl
      | bool b => rfl
      | inst c props => rfl

theorem buildCompoundDocuments_eq_aux {inst : JSVal} {n : Nat}
    (h : jsSize inst ≤ n) :
    buildCompoundDocuments inst = buildCompoundDocumentsAux n inst :=
  buildCompoundDocumentsAux_fuel (jsSize inst) n inst le_rfl h

/-! ### Lemmas about property access and `buildResource` -/

theorem hasOwnProp_of_truthy_getProp {v : JSVal} {k : String}
    (h : truthy (getProp v k) = true) : hasOwnProp v k = true := by
  cases v with
  | inst c props =>
    show props.any (fun p => p.1 == k) = true
    by_contra hn
    simp only [List.any_eq_true, not_exists] at hn
    have hf : props.find? (fun p => p.1 == k) = none := by
      rw [List.find?_eq_none]
      intro p hp hpk
      exact hn p ⟨hp, hpk⟩
    have : getProp (.inst c props) k = .undefVal := by
      show (lookupKey props k).getD .undefVal = .undefVal
      rw [lookupKey, hf]
      rfl
    rw [this] at h
    simp [truthy] at h
  | undefVal => simp [getProp, truthy] at h
  | jsNull => simp [getProp, truthy] at h
  | str s => simp [getProp, truthy] at h
  | num n => simp [getProp, truthy] at h
  | bool b => simp [getProp, truthy] at h
  | arr xs => simp [getProp, truthy] at h

theorem buildResource_of_hasOwn {v : JSVal} (h : hasOwnProp v "id" = true)
    (b : Bool) : buildResource v b = .ok (mkResource v) := by
  simp [buildResource, h]

theorem buildResource_of_truthy_id {v : JSVal}
    (h : truthy (getProp v "id") = true) (b : Bool) :
    buildResource v b = .ok (mkResource v) :=
  buildResource_of_hasOwn (hasOwnProp_of_truthy_getProp h) b

theorem buildResource_error_eq {v : JSVal} {b : Bool} {e : String}
    (h : buildResource v b = .error e) : e = expectedIdMessage := by
  unfold buildResource at h
  split at h <;> simp_all

theorem buildResource_isOk_iff {v : JSVal} {b : Bool} :
    (buildResource v b).isOk = true ↔ b = false ∨ hasOwnProp v "id" = true := by
  cases hb : b with
  | false => simp [buildResource, Except.isOk, Except.toBool]
  | true =>
    cases hw : hasOwnProp v "id" with
    | true => simp [buildResource, hw, Except.isOk, Except.toBool]
    | false => simp [buildResource, hw, Except.isOk, Except.toBool]

/-! ### Characterization of `mkResource` -/

theorem foldl_filter_step (p : α → Bool) (l : List α) : ∀ (init : List α),
    l.foldl (fun acc x => if p x then acc ++ [x] else acc) init =
    init ++ l.filter p := by
  induction l with
  | nil => intro init; simp
  | cons x rest ih =>
    intro init
    simp only [List.foldl_cons]
    by_cases h : p x = true
    · rw [if_pos h, ih, List.filter_cons_of_pos h]
      simp
    · rw [if_neg h, ih, List.filter_cons_of_neg h]

theorem foldl_append_singleton (g : α → β) (l : List α) : ∀ (init : List β),
    l.foldl (fun acc x => acc ++ [g x]) init = init ++ l.map g := by
  induction l with
  | nil => intro init; simp
  | cons x rest ih =>
    intro init
    simp only [List.foldl_cons, ih, List.map_cons]
    simp

/-- Relationship entries built by `mkResource`, as a map over the declared
relationship schema. -/
def relEntries (inst : JSVal) : List (String × Relationship) :=
  (relSchemaOf inst).map (fun kv =>
    (kv.1, buildRelationship (pluralOf inst) inst kv.1 kv.2.type))

theorem mkResource_eq (inst : JSVal) : mkResource inst =
    { type := singularOf inst
      id := getProp inst "id"
      attributes := (ownProps inst).filter (fun kv =>
        attrAdmit (propSchemaOf inst) kv.1)
      relationships :=
        if (relEntries inst).length != 0 then some (relEntries inst)
        else none } := by
  unfold mkResource relEntries
  simp only [foldl_filter_step, foldl_append_singleton, List.nil_append]

/-! ### Lemmas about the deduplication reduce -/

theorem jsEq_trans {a b c : JSVal} (h1 : jsEq a b = true)
    (h2 : jsEq b c = true) : jsEq a c = true := by
  cases a <;> cases b <;> cases c <;> simp_all [jsEq]

theorem sameDoc_trans {a b c : ResourceObject} (h1 : sameDoc a b = true)
    (h2 : sameDoc b c = true) : sameDoc a c = true := by
  simp only [sameDoc, Bool.and_eq_true, beq_iff_eq] at h1 h2 ⊢
  exact ⟨h1.1.trans h2.1, jsEq_trans h1.2 h2.2⟩

theorem dedupStep_pos {acc : List ResourceObject} {x : ResourceObject}
    (h : (acc.any fun doc => sameDoc doc x) = true) : dedupStep acc x = acc := by
  unfold dedupStep
  rw [if_pos h]

theorem dedupStep_neg {acc : List ResourceObject} {x : ResourceObject}
    (h : (acc.any fun doc => sameDoc doc x) = false) :
    dedupStep acc x = acc ++ [x] := by
  unfold dedupStep
  rw [if_neg (by rw [h]; simp)]

theorem mem_foldl_dedupStep (l : List ResourceObject) :
    ∀ (acc : List ResourceObject), ∀ x ∈ acc, x ∈ l.foldl dedupStep acc := by
  induction l with
  | nil => intro acc x hx; exact hx
  | cons y rest ih =>
    intro acc x hx
    simp only [List.foldl_cons]
    apply ih
    unfold dedupStep
    split
    · exact hx
    · exact List.mem_append_left _ hx

theorem mem_of_mem_foldl_dedupStep (l : List ResourceObject) :
    ∀ (acc : List ResourceObject), ∀ x ∈ l.foldl dedupStep acc,
    x ∈ acc ∨ x ∈ l := by
  induction l with
  | nil => intro acc x hx; exact Or.inl hx
  | cons y rest ih =>
    intro acc x hx
    simp only [List.foldl_cons] at hx
    rcases ih _ x hx with h | h
    · unfold dedupStep at h
      split at h
      · exact Or.inl h
      · rcases List.mem_append.mp h with h | h
        · exact Or.inl h
        · simp at h
          subst h
          exact Or.inr (List.mem_cons_self _ _)
    · exact Or.inr (List.mem_cons_of_mem _ h)

theorem foldl_dedupStep_shape (l : List ResourceObject) :
    ∀ (acc : List ResourceObject),
    ∃ l', l.foldl dedupStep acc = acc ++ l' ∧ l'.Sublist l := by
  induction l with
  | nil => intro acc; exact ⟨[], by simp, List.nil_sublist _⟩
  | cons x rest ih =>
    intro acc
    simp only [List.foldl_cons]
    cases hc : acc.any fun doc => sameDoc doc x with
    | true =>
      rw [dedupStep_pos hc]
      obtain ⟨l', h1, h2⟩ := ih acc
      exact ⟨l', h1, h2.cons x⟩
    | false =>
      rw [dedupStep_neg hc]
      obtain ⟨l', h1, h2⟩ := ih (acc ++ [x])
      refine ⟨x :: l', ?_, h2.cons₂ x⟩
      rw [h1, List.append_assoc, List.singleton_append]

theorem pairwise_foldl_dedupStep (l : List ResourceObject) :
    ∀ (acc : List ResourceObject),
    List.Pairwise (fun a b => sameDoc a b = false) acc →
    List.Pairwise (fun a b => sameDoc a b = false) (l.foldl dedupStep acc) := by
  induction l with
  | nil => intro acc h; exact h
  | cons x rest ih =>
    intro acc h
    simp only [List.foldl_cons]
    apply ih
    cases hany : acc.any fun doc => sameDoc doc x with
    | true =>
      rw [dedupStep_pos hany]
      exact h
    | false =>
      rw [dedupStep_neg hany]
      rw [List.pairwise_append]
      refine ⟨h, by simp, ?_⟩
      intro a ha b hb
      simp only [List.mem_singleton] at hb
      subst hb
      rw [List.any_eq_false] at hany
      have := hany a ha
      simp only [Bool.not_eq_true] at this
      exact this

theorem exists_same_foldl_of_mem {x y : ResourceObject}
    (l : List ResourceObject) : ∀ (acc : List ResourceObject), y ∈ l →
    sameDoc y x = true →
    ∃ d ∈ l.foldl dedupStep acc, sameDoc d x = true := by
  induction l with
  | nil => intro acc hy; cases hy
  | cons z rest ih =>
    intro acc hy hsame
    simp only [List.foldl_cons]
    cases hy with
    | head =>
      cases hany : acc.any (fun doc => sameDoc doc y) with
      | true =>
        have hstep := dedupStep_pos hany
        rw [List.any_eq_true] at hany
        obtain ⟨d, hd, hdy⟩ := hany
        refine ⟨d, mem_foldl_dedupStep rest _ d ?_, sameDoc_trans hdy hsame⟩
        rw [hstep]
        exact hd
      | false =>
        have hstep := dedupStep_neg hany
        refine ⟨y, mem_foldl_dedupStep rest _ y ?_, hsame⟩
        rw [hstep]
        exact List.mem_append_right _ (by simp)
    | tail _ hmem => exact ih _ hmem hsame

theorem dedup_drop {l₁ l₂ : List ResourceObject} {x : ResourceObject}
    (h : ∃ y ∈ l₁, sameDoc y x = true) :
    dedup (l₁ ++ x :: l₂) = dedup (l₁ ++ l₂) := by
  unfold dedup
  rw [List.foldl_append, List.foldl_append]
  simp only [List.foldl_cons]
  congr 1
  obtain ⟨y, hy, hsame⟩ := h
  have hex := exists_same_foldl_of_mem l₁ [] hy hsame
  exact dedupStep_pos (List.any_eq_true.mpr hex)

theorem dedup_keep_first {l₁ l₂ : List ResourceObject} {x : ResourceObject}
    (h : ∀ y ∈ l₁, sameDoc y x = false) : x ∈ dedup (l₁ ++ x :: l₂) := by
  unfold dedup
  rw [List.foldl_append]
  simp only [List.foldl_cons]
  apply mem_foldl_dedupStep
  have hnone : ((List.foldl dedupStep [] l₁).any fun doc => sameDoc doc x) = false := by
    cases hc : (List.foldl dedupStep [] l₁).any fun doc => sameDoc doc x with
    | false => rfl
    | true =>
      rw [List.any_eq_true] at hc
      obtain ⟨d, hd, hdx⟩ := hc
      rcases mem_of_mem_foldl_dedupStep l₁ [] d hd with hm | hm
      · cases hm
      · rw [h d hm] at hdx
        cases hdx
  rw [dedupStep_neg hnone]
  exact List.mem_append_right _ (by simp)

theorem dedup_eq_nil_iff (l : List ResourceObject) : dedup l = [] ↔ l = [] := by
  constructor
  · intro h
    cases l with
    | nil => rfl
    | cons x rest =>
      exfalso
      have hx : x ∈ dedup (x :: rest) := by
        unfold dedup
        simp only [List.foldl_cons]
        apply mem_foldl_dedupStep
        rw [dedupStep_neg (by simp)]
        simp
      rw [h] at hx
      cases hx
  · intro h
    subst h
    rfl

theorem dedup_sublist (l : List ResourceObject) : (dedup l).Sublist l := by
  obtain ⟨l', h1, h2⟩ := foldl_dedupStep_shape l []
  unfold dedup
  rw [h1]
  simpa using h2

theorem dedup_pairwise (l : List ResourceObject) :
    List.Pairwise (fun a b => sameDoc a b = false) (dedup l) :=
  pairwise_foldl_dedupStep l [] (by simp)

/-! ### Lemmas about `toJSON` -/

theorem getProp_eq_undef_of_not_hasOwn {v : JSVal} {k : String}
    (h : hasOwnProp v k = false) : getProp v k = .undefVal := by
  cases v with
  | inst c props =>
    show (lookupKey props k).getD .undefVal = .undefVal
    have h2 : props.any (fun p => p.1 == k) = false := h
    have hf : props.find? (fun p => p.1 == k) = none := by
      rw [List.find?_eq_none]
      intro p hp hpk
      have : props.any (fun p => p.1 == k) = true :=
        List.any_eq_true.mpr ⟨p, hp, hpk⟩
      rw [h2] at this
      cases this
    rw [lookupKey, hf]
    rfl
  | undefVal => rfl
  | jsNull => rfl
  | str s => rfl
  | num n => rfl
  | bool b => rfl
  | arr xs => rfl

theorem toJSON_inst_ok {c : ModelCtor} {props : List (String × JSVal)}
    {st req : Bool} (h : req = false ∨ hasOwnProp (.inst c props) "id" = true) :
    toJSON (.inst c props) st req =
      .ok (finishDoc (.one (mkResource (.inst c props)))
        (buildCompoundDocuments (.inst c props)) st) := by
  have hb : buildResource (.inst c props) req = .ok (mkResource (.inst c props)) := by
    rcases h with h | h
    · subst h
      simp [buildResource]
    · exact buildResource_of_hasOwn h req
  simp [toJSON, truthy, hb]

theorem toJSON_inst_error {c : ModelCtor} {props : List (String × JSVal)}
    {st : Bool} (h : hasOwnProp (.inst c props) "id" = false) :
    toJSON (.inst c props) st true = .error expectedIdMessage := by
  have hb : buildResource (.inst c props) true = .error expectedIdMessage := by
    simp [buildResource, h]
  simp [toJSON, truthy, hb]

theorem mapIdxThrow_cons_error {f : JSVal → Nat → Except String ResourceObject}
    {n : Nat} {x : JSVal} {xs : List JSVal} {e : String} (hf : f x n = .error e) :
    mapIdxThrow f n (x :: xs) = .error e := by
  simp only [mapIdxThrow, hf]
  rfl

theorem mapIdxThrow_cons_ok {f : JSVal → Nat → Except String ResourceObject}
    {n : Nat} {x : JSVal} {xs : List JSVal} {y : ResourceObject}
    (hf : f x n = .ok y) :
    mapIdxThrow f n (x :: xs) =
      (mapIdxThrow f (n + 1) xs).map (fun ys => y :: ys) := by
  simp only [mapIdxThrow, hf]
  cases mapIdxThrow f (n + 1) xs <;> rfl

theorem mapIdxThrow_error_iff :
    ∀ (xs : List JSVal) (n : Nat),
    (∃ e, mapIdxThrow (fun v i => buildResource v (i != 0)) n xs = .error e) ↔
    (∃ i, ∃ h : i < xs.length, n + i ≠ 0 ∧ hasOwnProp xs[i] "id" = false) := by
  intro xs
  induction xs with
  | nil =>
    intro n
    simp [mapIdxThrow]
  | cons x rest ih =>
    intro n
    cases hf : buildResource x (n != 0) with
    | error e =>
      have he : (n != 0) = true ∧ hasOwnProp x "id" = false := by
        unfold buildResource at hf
        split at hf <;> rename_i hc
        · simp only [Bool.and_eq_true, Bool.not_eq_true'] at hc
          exact hc
        · cases hf
      apply iff_of_true
      · exact ⟨e, mapIdxThrow_cons_error hf⟩
      · refine ⟨0, by simp, ?_, ?_⟩
        · have := he.1
          simp at this
          omega
        · simpa using he.2
    | ok y =>
      have hstep :=
        @mapIdxThrow_cons_ok (fun v i => buildResource v (i != 0)) n x rest y hf
      have hok : (n != 0) = false ∨ hasOwnProp x "id" = true := by
        cases hn : (n != 0) with
        | false => exact Or.inl rfl
        | true =>
          cases hw : hasOwnProp x "id" with
          | true => exact Or.inr rfl
          | false =>
            rw [buildResource, hn, hw] at hf
            simp at hf
      rw [hstep]
      constructor
      · intro hex
        obtain ⟨e, he⟩ := hex
        have : mapIdxThrow (fun v i => buildResource v (i != 0)) (n + 1) rest = .error e := by
          cases hr : mapIdxThrow (fun v i => buildResource v (i != 0)) (n + 1) rest with
          | error e2 =>
            rw [hr] at he
            have h2 : e2 = e := by
              cases he
              rfl
            rw [h2]
          | ok ys =>
            rw [hr] at he
            cases he
        obtain ⟨i, hi, hz, hw⟩ := (ih (n + 1)).mp ⟨e, this⟩
        refine ⟨i + 1, by simp; omega, by omega, ?_⟩
        rw [List.getElem_cons_succ]
        exact hw
      · intro hex
        obtain ⟨i, hi, hn0, hw⟩ := hex
        cases i with
        | zero =>
          exfalso
          rw [List.getElem_cons_zero] at hw
          rcases hok with hok | hok
          · simp at hok
            omega
          · rw [hok] at hw
            cases hw
        | succ i' =>
          rw [List.getElem_cons_succ] at hw
          have hil : i' < rest.length := by
            simp at hi
            omega
          obtain ⟨e, he⟩ := (ih (n + 1)).mpr ⟨i', hil, by omega, hw⟩
          refine ⟨e, ?_⟩
          rw [he]
          rfl


theorem mapIdxThrow_error_val {xs : List JSVal} {n : Nat} {e : String}
    (h : mapIdxThrow (fun v i => buildResource v (i != 0)) n xs = .error e) :
    e = expectedIdMessage := by
  induction xs generalizing n with
  | nil => simp [mapIdxThrow] at h
  | cons x rest ih =>
    cases hf : buildResource x (n != 0) with
    | error e2 =>
      rw [mapIdxThrow_cons_error hf] at h
      have h2 : e2 = e := by
        cases h
        rfl
      rw [← h2]
      exact buildResource_error_eq hf
    | ok y =>
      rw [mapIdxThrow_cons_ok hf] at h
      cases hr : mapIdxThrow (fun v i => buildResource v (i != 0)) (n + 1) rest with
      | error e2 =>
        rw [hr] at h
        have h2 : e2 = e := by
          cases h
          rfl
        rw [h2] at hr
        exact ih hr
      | ok ys =>
        rw [hr] at h
        cases h

/-- Contribution of one declared relationship key to the compound document
collection (the body of the `forEach` in `buildCompoundDocuments`, with the
final truthiness filter and flatten applied). -/
def collectForKey (inst : JSVal) (key : String) : List ResourceObject :=
  match getProp inst key with
  | .arr xs =>
    (xs.map (fun item =>
      if truthy item && hasSchema item then buildCompoundDocuments item
      else [])).flatten
    ++ xs.filterMap (fun item =>
        if truthy item && truthy (getProp item "id") then
          some (mkResource item)
        else none)
  | v => if truthy v && truthy (getProp v "id") then [mkResource v] else []

theorem buildCompoundDocuments_step (inst : JSVal) :
    buildCompoundDocuments inst =
    (relSchemaOf inst).flatMap (fun kv => collectForKey inst kv.1) := by
  obtain ⟨n, hn⟩ := Nat.exists_eq_succ_of_ne_zero
    (n := jsSize inst) (by have := jsSize_pos inst; omega)
  rw [buildCompoundDocuments, hn]
  simp only [buildCompoundDocumentsAux]
  apply List.flatMap_congr
  intro kv _
  unfold collectForKey
  cases hg : getProp inst kv.1 with
  | arr xs =>
    change (List.map _ xs).flatten ++ _ = (List.map _ xs).flatten ++ _
    congr 1
    apply congrArg
    apply List.map_congr_left
    intro item hitem
    by_cases hc : (truthy item && hasSchema item) = true
    · rw [if_pos hc, if_pos hc]
      have hlt : jsSize item < jsSize inst := jsSize_lt_of_arr_getProp hg hitem
      exact (buildCompoundDocuments_eq_aux (by omega)).symm
    · rw [if_neg hc, if_neg hc]
  | undefVal => rfl
  | jsNull => rfl
  | str s => rfl
  | num i => rfl
  | bool b => rfl
  | inst c props => rfl

theorem collectForKey_arr {inst : JSVal} {key : String} {xs : List JSVal}
    (hg : getProp inst key = .arr xs) :
    collectForKey inst key =
      (xs.map (fun item =>
        if truthy item && hasSchema item then buildCompoundDocuments item
        else [])).flatten
      ++ xs.filterMap (fun item =>
          if truthy item && truthy (getProp item "id") then
            some (mkResource item)
          else none) := by
  unfold collectForKey
  rw [hg]

theorem collectForKey_single {inst : JSVal} {key : String} {v : JSVal}
    (hg : getProp inst key = v) (hna : isArray v = false) :
    collectForKey inst key =
      if truthy v && truthy (getProp v "id") then [mkResource v] else [] := by
  unfold collectForKey
  rw [hg]
  cases v with
  | arr xs => simp [isArray] at hna
  | undefVal => rfl
  | jsNull => rfl
  | str s => rfl
  | num i => rfl
  | bool b => rfl
  | inst c props => rfl

theorem mem_bcd_of_mem_collect {inst : JSVal} {kv : String × RelSchema}
    {r : ResourceObject} (hk : kv ∈ relSchemaOf inst)
    (hr : r ∈ collectForKey inst kv.1) : r ∈ buildCompoundDocuments inst := by
  rw [buildCompoundDocuments_step]
  exact List.mem_flatMap.mpr ⟨kv, hk, hr⟩

theorem toJSON_arr_eq (xs : List JSVal) (st req : Bool) :
    toJSON (.arr xs) st req =
      (mapIdxThrow (fun v i => buildResource v (i != 0)) 0 xs).map (fun data =>
        finishDoc (.many data) ((xs.map buildCompoundDocuments).flatten) st) := by
  have h0 : toJSON (.arr xs) st req = (do
      let data ← mapIdxThrow (fun v i => buildResource v (i != 0)) 0 xs
      pure (finishDoc (.many data) ((xs.map buildCompoundDocuments).flatten) st)) := rfl
  rw [h0]
  cases hr : mapIdxThrow (fun v i => buildResource v (i != 0)) 0 xs with
  | error e => rfl
  | ok data => rfl

/-! ### Projection lemmas for `buildRelationship` -/

theorem buildRelationship_links (plural : String) (inst : JSVal)
    (key relType : String) :
    (buildRelationship plural inst key relType).links =
      if truthy (getProp inst "id") then
        some { self := "/" ++ plural ++ "/" ++ jsToString (getProp inst "id") ++
                       "/relationships/" ++ key
               related := "/" ++ plural ++ "/" ++ jsToString (getProp inst "id") ++
                          "/" ++ key }
      else none := rfl

theorem buildRelationship_links_none {plural : String} {inst : JSVal}
    {key relType : String} (h : truthy (getProp inst "id") = false) :
    (buildRelationship plural inst key relType).links = none := by
  rw [buildRelationship_links, if_neg (by rw [h]; simp)]

theorem buildRelationship_data (plural : String) (inst : JSVal)
    (key relType : String) :
    (buildRelationship plural inst key relType).data =
      (match getProp inst key with
       | .arr xs => some (.multiple (xs.map (mkIdentifier relType)))
       | v => if truthy v then some (.single (mkIdentifier relType v)) else none) := rfl

/-! ### Claim theorems -/

/-- C1 (corrected): `Array#map` passes the element index as `buildResource`'s
`requireId` parameter, so for array input the element at index 0 requires no
identifier while every element at a positive index does, independently of the
`requireId` option: `toJSON` on an array of model instances fails with the
missing-identifier error exactly when some element at a positive index lacks
an own `id` property.  The schema hypothesis restricts the statement to model
instances, the only inputs the serializer supports (a primitive array element
at index 0 would make the host runtime fail differently when its schema is
read). -/
theorem arrayElementIdentifierRule (xs : List JSVal) (st req : Bool)
    (_hx : ∀ v ∈ xs, hasSchema v = true) :
    (toJSON (.arr xs) st req = .error expectedIdMessage ↔
      ∃ i, ∃ h : i < xs.length, i ≠ 0 ∧ hasOwnProp xs[i] "id" = false)
  ∧ ((toJSON (.arr xs) st req).isOk = false ↔
      ∃ i, ∃ h : i < xs.length, i ≠ 0 ∧ hasOwnProp xs[i] "id" = false) := by
  have hiff : (∃ e, mapIdxThrow (fun v i => buildResource v (i != 0)) 0 xs = .error e) ↔
      (∃ i, ∃ h : i < xs.length, i ≠ 0 ∧ hasOwnProp xs[i] "id" = false) := by
    rw [mapIdxThrow_error_iff xs 0]
    constructor
    · intro ⟨i, hi, hn0, hw⟩
      exact ⟨i, hi, by omega, hw⟩
    · intro ⟨i, hi, hn0, hw⟩
      exact ⟨i, hi, by omega, hw⟩
  constructor
  · rw [toJSON_arr_eq]
    constructor
    · intro h
      apply hiff.mp
      cases hr : mapIdxThrow (fun v i => buildResource v (i != 0)) 0 xs with
      | error e => exact ⟨e, rfl⟩
      | ok data =>
        rw [hr] at h
        cases h
    · intro hex
      obtain ⟨e, he⟩ := hiff.mpr hex
      have hv := mapIdxThrow_error_val he
      rw [he, hv]
      rfl
  · rw [toJSON_arr_eq]
    constructor
    · intro h
      apply hiff.mp
      cases hr : mapIdxThrow (fun v i => buildResource v (i != 0)) 0 xs with
      | error e => exact ⟨e, rfl⟩
      | ok data =>
        rw [hr] at h
        cases h
    · intro hex
      obtain ⟨e, he⟩ := hiff.mpr hex
      rw [he]
      rfl

/-- C1 witness: applying the rule to an array whose second element lacks an
identifier makes `toJSON` fail, whatever `requireId` says. -/
theorem arrayElementIdentifierRule_witness :
    toJSON (.arr [exInst1, exNoId]) false false = .error expectedIdMessage :=
  (arrayElementIdentifierRule [exInst1, exNoId] false false
    (by decide)).1.mpr ⟨1, by decide, by decide, by decide⟩

/-- C1 counterexample: an array whose only element lacks an own `id` property
is serialized without error (the claim demands a failure regardless of the
element's position), because the element at index 0 is processed with a falsy
`requireId`. -/
theorem arrayElementIdentifierRule_counterexample :
    hasOwnProp exNoId "id" = false ∧
    (toJSON (.arr [exNoId]) false true).isOk = true := by
  exact ⟨rfl, rfl⟩

/-- C2 (corrected): the compound document collection recurses only through
array-valued relationship values.  (1) Every resource collected from a model
instance sitting in an array-valued relationship is collected from the owner
too; (2) every truthy array element with a truthy `id` contributes its own
resource object; (3) a truthy non-array nested value with a truthy `id`
contributes its own resource object; (4) when every declared relationship of
an instance holds a non-array value, the collection is exactly the resource
objects of its truthy nested values with truthy identifiers — nothing nested
deeper is reached through single-valued relationships. -/
theorem compoundCollectionRecursion :
    (∀ (inst : JSVal) (kv : String × RelSchema) (xs : List JSVal)
        (item : JSVal) (r : ResourceObject),
      kv ∈ relSchemaOf inst → getProp inst kv.1 = .arr xs → item ∈ xs →
      truthy item = true → hasSchema item = true →
      r ∈ buildCompoundDocuments item → r ∈ buildCompoundDocuments inst)
  ∧ (∀ (inst : JSVal) (kv : String × RelSchema) (xs : List JSVal) (item : JSVal),
      kv ∈ relSchemaOf inst → getProp inst kv.1 = .arr xs → item ∈ xs →
      truthy item = true → truthy (getProp item "id") = true →
      mkResource item ∈ buildCompoundDocuments inst)
  ∧ (∀ (inst : JSVal) (kv : String × RelSchema) (v : JSVal),
      kv ∈ relSchemaOf inst → getProp inst kv.1 = v → isArray v = false →
      truthy v = true → truthy (getProp v "id") = true →
      mkResource v ∈ buildCompoundDocuments inst)
  ∧ (∀ (inst : JSVal),
      (∀ kv ∈ relSchemaOf inst, isArray (getProp inst kv.1) = false) →
      buildCompoundDocuments inst = (relSchemaOf inst).flatMap (fun kv =>
        if truthy (getProp inst kv.1) && truthy (getProp (getProp inst kv.1) "id")
        then [mkResource (getProp inst kv.1)] else [])) := by
  refine ⟨?_, ?_, ?_, ?_⟩
  · intro inst kv xs item r hk hg hm ht hs hr
    apply mem_bcd_of_mem_collect hk
    rw [collectForKey_arr hg]
    apply List.mem_append_left
    rw [List.mem_flatten]
    refine ⟨buildCompoundDocuments item, ?_, hr⟩
    rw [List.mem_map]
    refine ⟨item, hm, ?_⟩
    rw [if_pos (by rw [ht, hs]; rfl)]
  · intro inst kv xs item hk hg hm ht hid
    apply mem_bcd_of_mem_collect hk
    rw [collectForKey_arr hg]
    apply List.mem_append_right
    rw [List.mem_filterMap]
    refine ⟨item, hm, ?_⟩
    rw [if_pos (by rw [ht, hid]; rfl)]
  · intro inst kv v hk hg hna ht hid
    apply mem_bcd_of_mem_collect hk
    rw [collectForKey_single hg hna, if_pos (by rw [ht, hid]; rfl)]
    simp
  · intro inst hall
    rw [buildCompoundDocuments_step]
    apply List.flatMap_congr
    intro kv hkv
    rw [collectForKey_single rfl (hall kv hkv)]

/-- C2 witness: a grandchild behind an array-valued edge is collected
recursively, and a single-valued related instance contributes its resource. -/
theorem compoundCollectionRecursion_witness :
    mkResource exDeep ∈ buildCompoundDocuments exParentArr ∧
    mkResource exChildDeep ∈ buildCompoundDocuments exParentSingle := by
  constructor
  · apply compoundCollectionRecursion.1 exParentArr ("children", ⟨"child", true⟩)
      [exChildDeep] exChildDeep (mkResource exDeep) (by decide) rfl
      (List.mem_singleton.mpr rfl) rfl rfl
    have h : buildCompoundDocuments exChildDeep = [mkResource exDeep] := rfl
    rw [h]
    exact List.mem_singleton.mpr rfl
  · exact compoundCollectionRecursion.2.2.1 exParentSingle
      ("child", ⟨"single", false⟩) exChildDeep (by decide) rfl rfl rfl rfl

/-- C2 counterexample: `exDeep` is reachable through declared relationships of
`exParentSingle` (two single-valued hops) and carries a truthy identifier, yet
the collection for `exParentSingle` holds only the directly related resource —
no resource with `exDeep`'s type and identifier appears, refuting "a resource
object for every nested instance reachable ... at any depth". -/
theorem compoundCollectionRecursion_counterexample :
    getProp exParentSingle "child" = exChildDeep ∧
    getProp exChildDeep "deep" = exDeep ∧
    truthy (getProp exDeep "id") = true ∧
    (mkResource exDeep).type = "single" ∧
    (mkResource exDeep).id = .str "3" ∧
    buildCompoundDocuments exParentSingle = [mkResource exChildDeep] ∧
    ((buildCompoundDocuments exParentSingle).any
      (fun r => r.type == "single" && jsEq r.id (.str "3"))) = false := by
  exact ⟨rfl, rfl, rfl, rfl, rfl, rfl, rfl⟩

/-- C3 (corrected): the `data` member of a relationship entry is omitted
exactly when the nested value is falsy and not an array — i.e. for an absent
or null (or otherwise falsy) nested value.  An empty-array nested value does
carry a `data` member, holding the empty array, because the `Array.isArray`
branch assigns `data` unconditionally. -/
theorem relationshipDataOmission (plural : String) (inst : JSVal)
    (key relType : String) :
    ((buildRelationship plural inst key relType).data = none ↔
      isArray (getProp inst key) = false ∧ truthy (getProp inst key) = false)
  ∧ (getProp inst key = .arr [] →
      (buildRelationship plural inst key relType).data = some (.multiple [])) := by
  constructor
  · rw [buildRelationship_data]
    cases hg : getProp inst key with
    | arr xs => simp [isArray]
    | undefVal => simp [isArray, truthy]
    | jsNull => simp [isArray, truthy]
    | str s => simp [isArray, truthy, ite_eq_right_iff]
    | num n => simp [isArray, truthy, ite_eq_right_iff]
    | bool b => simp [isArray, truthy, ite_eq_right_iff]
    | inst c props => simp [isArray, truthy]
  · intro hg
    rw [buildRelationship_data, hg]
    rfl

/-- C3 witness: the omission rule applied to a populated instance, and the
empty-array form. -/
theorem relationshipDataOmission_witness :
    ((buildRelationship "tests" exInst1 "children" "child").data = none ↔
      isArray (getProp exInst1 "children") = false ∧
      truthy (getProp exInst1 "children") = false)
  ∧ (buildRelationship "tests" exEmptyArr "children" "child").data =
      some (.multiple []) :=
  ⟨(relationshipDataOmission "tests" exInst1 "children" "child").1,
   (relationshipDataOmission "tests" exEmptyArr "children" "child").2 rfl⟩

/-- C3 counterexample: an empty-array nested value yields a relationship
entry whose `data` member is present (the empty array), where the claim
demands its absence. -/
theorem relationshipDataOmission_counterexample :
    getProp exEmptyArr "children" = .arr [] ∧
    (buildRelationship "tests" exEmptyArr "children" "child").data =
      some (.multiple []) ∧
    (lookupKey ((mkResource exEmptyArr).relationships.getD []) "children").map
      (fun rel => rel.data.isSome) = some true := by
  exact ⟨rfl, rfl, rfl⟩

theorem mkResource_links_none {inst : JSVal}
    (h : truthy (getProp inst "id") = false) :
    ∀ p ∈ (mkResource inst).relationships.getD [], p.2.links = none := by
  intro p hp
  rw [mkResource_eq] at hp
  have hp2 : p ∈ (if (relEntries inst).length != 0
      then some (relEntries inst) else none).getD [] := hp
  by_cases hl : ((relEntries inst).length != 0) = true
  · rw [if_pos hl] at hp2
    have hp3 : p ∈ relEntries inst := hp2
    unfold relEntries at hp3
    rw [List.mem_map] at hp3
    obtain ⟨kv, _, hkv⟩ := hp3
    rw [← hkv]
    exact buildRelationship_links_none h
  · rw [if_neg hl] at hp2
    simp at hp2

/-- C4 (confirmed): for a single (non-array) model instance, `toJSON` fails
with an error mentioning "id" exactly when `requireId` is true and the
instance has no own `id` property; with `requireId` false it succeeds, and in
that success every relationship entry of the data resource omits `links`. -/
theorem singleInstanceIdentifierRule (c : ModelCtor)
    (props : List (String × JSVal)) (st req : Bool) :
    ((∃ e, toJSON (.inst c props) st req = .error e ∧ mentionsId e = true) ↔
      req = true ∧ hasOwnProp (.inst c props) "id" = false)
  ∧ (hasOwnProp (.inst c props) "id" = false →
      (toJSON (.inst c props) st false).isOk = true)
  ∧ (hasOwnProp (.inst c props) "id" = false →
      ∃ d, toJSON (.inst c props) false false = .ok (.docVal d) ∧
        d.data = .one (mkResource (.inst c props)) ∧
        ∀ p ∈ (mkResource (.inst c props)).relationships.getD [],
          p.2.links = none) := by
  refine ⟨⟨?_, ?_⟩, ?_, ?_⟩
  · rintro ⟨e, he, -⟩
    cases hreq : req with
    | false =>
      rw [hreq] at he
      rw [@toJSON_inst_ok c props st false (Or.inl rfl)] at he
      cases he
    | true =>
      cases hw : hasOwnProp (.inst c props) "id" with
      | true =>
        rw [hreq] at he
        rw [@toJSON_inst_ok c props st true (Or.inr hw)] at he
        cases he
      | false => exact ⟨rfl, rfl⟩
  · rintro ⟨h1, h2⟩
    subst h1
    exact ⟨expectedIdMessage, toJSON_inst_error h2, by decide⟩
  · intro h
    rw [@toJSON_inst_ok c props st false (Or.inl rfl)]
    rfl
  · intro h
    refine ⟨{ data := .one (mkResource (.inst c props))
              included :=
                if (buildCompoundDocuments (.inst c props)).length != 0
                then some (dedup (buildCompoundDocuments (.inst c props)))
                else none }, ?_, rfl, ?_⟩
    · rw [@toJSON_inst_ok c props false false (Or.inl rfl)]
      rfl
    · exact mkResource_links_none
        (by rw [getProp_eq_undef_of_not_hasOwn h]; rfl)

/-- C4 witness: the rule at an instance without an identifier. -/
theorem singleInstanceIdentifierRule_witness :
    (∃ e, toJSON exNoId true true = .error e ∧ mentionsId e = true) ∧
    (toJSON exNoId true false).isOk = true :=
  ⟨(singleInstanceIdentifierRule testCtor [("name", .str "test")] true true).1.mpr
    ⟨rfl, rfl⟩,
   (singleInstanceIdentifierRule testCtor [("name", .str "test")] true true).2.1 rfl⟩

/-- Resource object fixture. -/
def resA : ResourceObject :=
  { type := "t", id := .str "1", attributes := [], relationships := none }

/-- Resource object with the same type and identifier as `resA` but different
attributes (a duplicate that must be dropped, not merged). -/
def resA2 : ResourceObject :=
  { type := "t", id := .str "1", attributes := [("x", .str "2")]
    relationships := none }

/-- Resource object with a different identifier. -/
def resB : ResourceObject :=
  { type := "t", id := .str "2", attributes := [], relationships := none }

/-- Document produced for `exInst1` with `stringify:false`. -/
def exDoc : Document :=
  { data := .one (mkResource exInst1), included := some [mkResource exChild2] }

/-- C5 (confirmed): the deduplication reduce keeps a subsequence of its input
(first-occurrence order, entries unmerged), no two kept entries share the same
`(type, id)` pair, an occurrence with no same-keyed predecessor is kept, a
later duplicate is dropped without affecting the rest, the result is empty
exactly for empty input, and the document built for a single instance carries
`included` exactly when the deduplicated collection is non-empty. -/
theorem dedupSpecification (l : List ResourceObject) :
    (dedup l).Sublist l
  ∧ List.Pairwise (fun a b => sameDoc a b = false) (dedup l)
  ∧ (∀ l₁ x l₂, l = l₁ ++ x :: l₂ → (∀ y ∈ l₁, sameDoc y x = false) →
      x ∈ dedup l)
  ∧ (∀ l₁ x l₂, l = l₁ ++ x :: l₂ → (∃ y ∈ l₁, sameDoc y x = true) →
      dedup l = dedup (l₁ ++ l₂))
  ∧ (dedup l = [] ↔ l = [])
  ∧ (∀ (c : ModelCtor) (props : List (String × JSVal)) (d : Document),
      toJSON (.inst c props) false false = .ok (.docVal d) →
      (d.included.isSome ↔
        dedup (buildCompoundDocuments (.inst c props)) ≠ [])) := by
  refine ⟨dedup_sublist l, dedup_pairwise l, ?_, ?_, dedup_eq_nil_iff l, ?_⟩
  · intro l₁ x l₂ he hf
    subst he
    exact dedup_keep_first hf
  · intro l₁ x l₂ he hx
    subst he
    exact dedup_drop hx
  · intro c props d h
    have h0 := @toJSON_inst_ok c props false false (Or.inl rfl)
    rw [h0] at h
    have h1 : SerResult.docVal
        { data := .one (mkResource (.inst c props))
          included :=
            if (buildCompoundDocuments (.inst c props)).length != 0
            then some (dedup (buildCompoundDocuments (.inst c props)))
            else none } = SerResult.docVal d := by
      injection h
    have h2 := (SerResult.docVal.injEq _ _).mp h1
    rw [← h2]
    by_cases hl : (buildCompoundDocuments (.inst c props)).length = 0
    · have hnil : buildCompoundDocuments (.inst c props) = [] :=
        List.length_eq_zero.mp hl
      rw [if_neg (by rw [hl]; simp)]
      simp only [Option.isSome_none, Bool.false_eq_true, false_iff, ne_eq,
        not_not, hnil]
      rfl
    · rw [if_pos (by simp [hl])]
      have hne : buildCompoundDocuments (.inst c props) ≠ [] := by
        intro hc
        rw [hc] at hl
        simp at hl
      simp only [Option.isSome_some, true_iff]
      intro hc
      exact hne ((dedup_eq_nil_iff _).mp hc)

/-- C5 witness: the rule applied to a concrete list with a (type, id)
duplicate, and to the document of a concrete instance. -/
theorem dedupSpecification_witness :
    resA ∈ dedup [resA, resA2, resB]
  ∧ dedup [resA, resA2, resB] = dedup ([resA] ++ [resB])
  ∧ (exDoc.included.isSome ↔
      dedup (buildCompoundDocuments exInst1) ≠ []) := by
  refine ⟨?_, ?_, ?_⟩
  · exact (dedupSpecification [resA, resA2, resB]).2.2.1 [] resA [resA2, resB]
      rfl (by intro y hy; cases hy)
  · exact (dedupSpecification [resA, resA2, resB]).2.2.2.1 [resA] resA2 [resB]
      rfl ⟨resA, List.mem_singleton.mpr rfl, rfl⟩
  · exact (dedupSpecification []).2.2.2.2.2 testCtor
      [("name", .str "test"), ("id", .str "1"), ("child", exChild2)] exDoc rfl

/-- C6 (confirmed): every resource identifier emitted for a relationship
carries the relationship's declared target type, never a type read off the
nested element, and a raw-string nested value or array element becomes the
identifier's `id` itself. -/
theorem relationshipIdentifierTypes (plural : String) (inst : JSVal)
    (key relType : String) :
    (∀ item : JSVal, (mkIdentifier relType item).type = relType)
  ∧ (∀ s : String, mkIdentifier relType (.str s) =
      { id := .str s, type := relType })
  ∧ (∀ xs : List JSVal, getProp inst key = .arr xs →
      (buildRelationship plural inst key relType).data =
        some (.multiple (xs.map (mkIdentifier relType))))
  ∧ (∀ v : JSVal, getProp inst key = v → isArray v = false → truthy v = true →
      (buildRelationship plural inst key relType).data =
        some (.single (mkIdentifier relType v))) := by
  refine ⟨fun item => rfl, fun s => rfl, ?_, ?_⟩
  · intro xs hg
    rw [buildRelationship_data, hg]
  · intro v hg hna ht
    rw [buildRelationship_data, hg]
    cases v with
    | arr xs => simp [isArray] at hna
    | undefVal => simp [truthy] at ht
    | jsNull => simp [truthy] at ht
    | str s => simp [ht]
    | num n => simp [ht]
    | bool b => simp [ht]
    | inst c2 props2 => simp [ht]

/-- C6 witness: the rule at a raw-string value and at a populated instance
relationship. -/
theorem relationshipIdentifierTypes_witness :
    (mkIdentifier "single" (.str "2")).type = "single"
  ∧ mkIdentifier "single" (.str "2") = { id := .str "2", type := "single" }
  ∧ (buildRelationship "tests" exInst1 "child" "single").data =
      some (.single (mkIdentifier "single" exChild2)) :=
  ⟨(relationshipIdentifierTypes "tests" exInst1 "child" "single").1 (.str "2"),
   (relationshipIdentifierTypes "tests" exInst1 "child" "single").2.1 "2",
   (relationshipIdentifierTypes "tests" exInst1 "child" "single").2.2.2
     exChild2 rfl rfl rfl⟩

/-- C7 (confirmed): an own property of an instance appears in `attributes`
exactly when the property schema declares it with a `public` flag that is
`true` or unset. -/
theorem attributeSchemaFiltering (c : ModelCtor) (props : List (String × JSVal))
    (k : String) (v : JSVal) :
    (k, v) ∈ (mkResource (.inst c props)).attributes ↔
      ((k, v) ∈ props ∧ ∃ ps, lookupKey c.properties k = some ps ∧
        (ps.publicFlag = some true ∨ ps.publicFlag = none)) := by
  have ha : (mkResource (.inst c props)).attributes =
      props.filter (fun kv => attrAdmit c.properties kv.1) := by
    rw [mkResource_eq]
    rfl
  rw [ha, List.mem_filter]
  constructor
  · rintro ⟨h1, h2⟩
    refine ⟨h1, ?_⟩
    have h3 : (match lookupKey c.properties k with
        | some ks => ks.publicFlag == some true || ks.publicFlag == none
        | none => false) = true := h2
    cases hl : lookupKey c.properties k with
    | none =>
      rw [hl] at h3
      cases h3
    | some ps =>
      rw [hl] at h3
      rw [Bool.or_eq_true, beq_iff_eq, beq_iff_eq] at h3
      exact ⟨ps, rfl, h3⟩
  · rintro ⟨h1, ps, hl, hp⟩
    refine ⟨h1, ?_⟩
    show (match lookupKey c.properties k with
      | some ks => ks.publicFlag == some true || ks.publicFlag == none
      | none => false) = true
    rw [hl]
    show (ps.publicFlag == some true || ps.publicFlag == none) = true
    rcases hp with hp | hp <;> rw [hp] <;> rfl

/-- C7 witness: a declared public property is kept; a property declared with
`public:false` is dropped regardless of its value. -/
theorem attributeSchemaFiltering_witness :
    ("name", JSVal.str "test") ∈ (mkResource exInst1).attributes
  ∧ ¬ (("private", JSVal.str "x") ∈
      (mkResource (.inst testCtor
        [("id", .str "1"), ("private", .str "x")])).attributes) := by
  constructor
  · exact (attributeSchemaFiltering testCtor
      [("name", .str "test"), ("id", .str "1"), ("child", exChild2)] "name"
      (.str "test")).mpr
      ⟨List.mem_cons_self _ _, ⟨none⟩, rfl, Or.inr rfl⟩
  · intro hmem
    obtain ⟨hmem2, ps, hl, hp⟩ := (attributeSchemaFiltering testCtor
      [("id", .str "1"), ("private", .str "x")] "private" (.str "x")).mp hmem
    have h2 : (some ⟨some false⟩ : Option PropSchema) = some ps := hl
    have h3 : (⟨some false⟩ : PropSchema) = ps := by
      injection h2
    rw [← h3] at hp
    rcases hp with hp | hp <;> exact absurd hp (by decide)

/-- Constructor of a bare Error-like object (no model schema involved). -/
def errCtor : ModelCtor :=
  { singular := "", plural := "", properties := [], relationships := none }

/-- Error-like object with a message and no status. -/
def exErr : JSVal := .inst errCtor [("message", .str "test")]

/-- Error-like object with a status and no message property. -/
def exErrNoMsg : JSVal := .inst errCtor [("status", .num 404)]

/-- C8 (confirmed): `errorsToJSON` wraps a non-array input in a one-element
sequence, maps every value to `{ detail: message, status: status }` inside a
top-level `{ errors }` document, and a value lacking a `message` (or `status`)
property yields `undefined` for that member instead of failing. -/
theorem errorsSerializationRule (errors : JSVal) :
    (isArray errors = false →
      errorsToJSON errors false = .docVal { errors :=
        [{ detail := getProp errors "message"
           status := getProp errors "status" }] })
  ∧ (∀ xs : List JSVal, errors = .arr xs →
      errorsToJSON errors false = .docVal { errors := xs.map (fun e =>
        { detail := getProp e "message", status := getProp e "status" }) })
  ∧ (∀ e : JSVal, hasOwnProp e "message" = false →
      getProp e "message" = .undefVal)
  ∧ (∀ e : JSVal, hasOwnProp e "status" = false →
      getProp e "status" = .undefVal) := by
  refine ⟨?_, ?_, fun e h => getProp_eq_undef_of_not_hasOwn h,
    fun e h => getProp_eq_undef_of_not_hasOwn h⟩
  · intro hna
    cases errors with
    | arr xs => simp [isArray] at hna
    | undefVal => rfl
    | jsNull => rfl
    | str s => rfl
    | num n => rfl
    | bool b => rfl
    | inst c props => rfl
  · intro xs he
    subst he
    rfl

/-- C8 witness: a scalar Error-like value is wrapped and mapped; a value
without a message yields an undefined detail. -/
theorem errorsSerializationRule_witness :
    errorsToJSON exErr false =
      .docVal { errors := [{ detail := .str "test", status := .undefVal }] }
  ∧ getProp exErrNoMsg "message" = .undefVal := by
  constructor
  · exact (errorsSerializationRule exErr).1 rfl
  · exact (errorsSerializationRule exErrNoMsg).2.2.1 exErrNoMsg rfl

/-- C9 (confirmed): every falsy instance argument — not only null — yields
the null document: the text "null" under `stringify`, the native null value
otherwise, for 0, the empty string and `false` alike. -/
theorem falsyInstanceNullDocument (inst : JSVal) (st req : Bool) :
    (truthy inst = false →
      toJSON inst st req = .ok (if st then .text "null" else .jsNullVal))
  ∧ toJSON (.num 0) st req = .ok (if st then .text "null" else .jsNullVal)
  ∧ toJSON (.str "") st req = .ok (if st then .text "null" else .jsNullVal)
  ∧ toJSON (.bool false) st req =
      .ok (if st then .text "null" else .jsNullVal) := by
  refine ⟨?_, rfl, rfl, rfl⟩
  intro h
  unfold toJSON
  rw [h]
  rfl

/-- C9 witness: the null document at a falsy input under both `stringify`
modes. -/
theorem falsyInstanceNullDocument_witness :
    toJSON .jsNull true true = .ok (.text "null") ∧
    toJSON (.num 0) false true = .ok .jsNullVal :=
  ⟨(falsyInstanceNullDocument .jsNull true true).1 rfl,
   (falsyInstanceNullDocument (.num 0) false true).2.1⟩

/-- Instance of `test` whose own `id` property holds the empty string. -/
def exEmptyId : JSVal := .inst testCtor [("id", .str ""), ("name", .str "x")]

/-- C10 (confirmed): an instance whose own `id` property holds a falsy value
passes the missing-identifier check even with `requireId` (the check tests
property presence), yet every relationship entry omits `links`, whose
presence follows the truthiness of the identifier value. -/
theorem falsyOwnIdentifierRule (c : ModelCtor) (props : List (String × JSVal))
    (h1 : hasOwnProp (.inst c props) "id" = true)
    (h2 : truthy (getProp (.inst c props) "id") = false) :
    buildResource (.inst c props) true = .ok (mkResource (.inst c props))
  ∧ (toJSON (.inst c props) false true).isOk = true
  ∧ ∀ p ∈ (mkResource (.inst c props)).relationships.getD [],
      p.2.links = none := by
  refine ⟨buildResource_of_hasOwn h1 true, ?_, mkResource_links_none h2⟩
  rw [@toJSON_inst_ok c props false true (Or.inr h1)]
  rfl

/-- C10 witness: the rule at an instance whose `id` is the empty string. -/
theorem falsyOwnIdentifierRule_witness :
    buildResource exEmptyId true = .ok (mkResource exEmptyId)
  ∧ (toJSON exEmptyId false true).isOk = true
  ∧ ("children", buildRelationship "tests" exEmptyId "children" "child").2.links
      = none := by
  refine ⟨(falsyOwnIdentifierRule testCtor
      [("id", .str ""), ("name", .str "x")] rfl rfl).1,
    (falsyOwnIdentifierRule testCtor
      [("id", .str ""), ("name", .str "x")] rfl rfl).2.1, ?_⟩
  exact (falsyOwnIdentifierRule testCtor
      [("id", .str ""), ("name", .str "x")] rfl rfl).2.2
    ("children", buildRelationship "tests" exEmptyId "children" "child")
    (List.mem_cons_self _ _)

end KuduJsonApi
